import Mathlib

/-!
# Repository controller of the registry: push completion gate and pull resolvers

A shallow embedding of `controllers/repository.go`.  Each handler of the
controller is a function from the persisted tables (and the request) to the
new tables and the HTTP outcome.  `StopRun` ends a handler, so every guard of
the source that calls it is an early return here.

Three things the controller calls live outside the file and are handled as
follows:

* the persistence engine (`models.Engine`, an xorm engine) is the record
  `Engine` of four tables with keyed reads, updates by row id and inserts;
  every engine call of a handler can fail, as directed by a fault record, and
  a call that fails writes nothing; a read by example takes its conditions
  from the bean as the engine does, leaving out `bool` fields and an empty
  image id;
* `encoding/json` is the record `Json` of the two decoding calls; every
  general theorem holds for all decoders, and `goJson` is a concrete decoder
  used to run the scenarios;
* `utils.RemoveDuplicateString` is modelled from its description.
-/

set_option linter.dupNamespace false

namespace DockerRegistry

/-! ## Tables -/

/-- Row of `models.User`, with the fields the controller reads and writes. -/
structure User where
  Id : Nat
  Username : String
  Password : String
  Token : String
  Actived : Bool
deriving DecidableEq

/-- Row of `models.Repository`.  `JSON` is the manifest text exactly as it was
sent at registration; `Size` is an `int64`. -/
structure Repository where
  Id : Nat
  Namespace : String
  Repository : String
  JSON : String
  Uploaded : Bool
  CheckSumed : Bool
  Size : Int
deriving DecidableEq

/-- Row of `models.Tag`; `Repository` holds the id of the repository row. -/
structure Tag where
  Id : Nat
  Name : String
  ImageId : String
  Agent : String
  Repository : Nat
deriving DecidableEq

/-- Row of `models.Image`; `ParentJSON` is the stored ancestor chain, as JSON
text. -/
structure Image where
  Id : Nat
  ImageId : String
  ParentJSON : String
  Uploaded : Bool
  CheckSumed : Bool
  Size : Int
deriving DecidableEq

/-- The persisted state behind `models.Engine`: the four tables the controller
works on, each in persisted order. -/
structure Engine where
  users : List User
  repositories : List Repository
  tags : List Tag
  images : List Image
deriving DecidableEq

/-- Id given to an inserted row: one more than every id in the table. -/
def freshId (ids : List Nat) : Nat := ids.foldr max 0 + 1

/-- Engine call `Get(&Repository{Namespace, Repository})`: the first row with
that namespace and name.  Both come from the route of the request and are not
empty. -/
def Engine.getRepository (db : Engine) (ns name : String) : Option Repository :=
  db.repositories.find? (fun r => decide (r.Namespace = ns) && decide (r.Repository = name))

/-- Engine call
`Get(&Repository{Namespace, Repository, Uploaded: true, CheckSumed: true})`.
The engine builds the conditions of a `Get` from the fields of the bean and
leaves out the fields of type `bool`, so the two flags add no condition: the
call returns the first row with that namespace and name, whatever its flags.
The source comment on the call says a repository whose upload is complete was
meant. -/
def Engine.getUploadedRepository (db : Engine) (ns name : String) : Option Repository :=
  db.repositories.find? (fun r => decide (r.Namespace = ns) && decide (r.Repository = name))

/-- Engine call `Get(&Image{ImageId})`.  The engine builds a condition only
from a field that is not the zero value: the call returns the first row with
that image id, and with the empty id, for which no condition is built, the
first row of the table. -/
def Engine.getImage (db : Engine) (imageId : String) : Option Image :=
  db.images.find? (fun i => decide (imageId = "") || decide (i.ImageId = imageId))

/-- Engine call `Get(&Tag{Name, Repository})`: the first row with that name
and repository id. -/
def Engine.getTag (db : Engine) (name : String) (repositoryId : Nat) : Option Tag :=
  db.tags.find? (fun t => decide (t.Name = name) && decide (t.Repository = repositoryId))

/-- Engine call `Where("repository_id= ?", id).Find(&tags)`: the tags of one
repository, in persisted order. -/
def Engine.findTags (db : Engine) (repositoryId : Nat) : List Tag :=
  db.tags.filter (fun t => decide (t.Repository = repositoryId))

/-- Engine call `Id(id).Cols(..).Update(repo)` that succeeds: the columns
named are written, as `f` does, to the repository rows whose id is `id`. -/
def Engine.updateRepository (db : Engine) (id : Nat) (f : Repository → Repository) : Engine :=
  { db with repositories := db.repositories.map (fun r => if r.Id = id then f r else r) }

/-- Engine call `Insert(repo)` that succeeds: the row is added with a fresh
id. -/
def Engine.insertRepository (db : Engine) (r : Repository) : Engine :=
  { db with repositories :=
      db.repositories ++ [{ r with Id := freshId (db.repositories.map (fun x => x.Id)) }] }

/-- Engine call `Id(id).Update(tag)` that succeeds, on the tag rows whose id is
`id`. -/
def Engine.updateTag (db : Engine) (id : Nat) (f : Tag → Tag) : Engine :=
  { db with tags := db.tags.map (fun t => if t.Id = id then f t else t) }

/-- Engine call `Insert(tag)` that succeeds: the row is added with a fresh
id. -/
def Engine.insertTag (db : Engine) (t : Tag) : Engine :=
  { db with tags := db.tags ++ [{ t with Id := freshId (db.tags.map (fun x => x.Id)) }] }

/-- Engine call `Id(id).Cols("Token").Update(user)` that succeeds. -/
def Engine.updateUserToken (db : Engine) (id : Nat) (token : String) : Engine :=
  { db with users := db.users.map (fun u => if u.Id = id then { u with Token := token } else u) }

/-! ## Values of the Go runtime -/

/-- Value of an `int64` computation whose exact result is `x`. -/
def wrapInt64 (x : Int) : Int := (x + 2 ^ 63) % 2 ^ 64 - 2 ^ 63

/-- Go map of strings, as the list of its entries. -/
abbrev GoMap := List (String × String)

/-- Index expression `m[k]` of a `map[string]string`: the zero value when the
key is absent. -/
def GoMap.index (m : GoMap) (k : String) : String := (m.lookup k).getD ""

/-- Assignment `m[k] = v`. -/
def GoMap.set : GoMap → String → String → GoMap
  | [], k, v => [(k, v)]
  | (k0, v0) :: rest, k, v => if k0 = k then (k, v) :: rest else (k0, v0) :: GoMap.set rest k v

/-- What `json.Unmarshal` leaves behind: the decoded value and whether it
returned an error. -/
structure Decoded (α : Type) where
  value : α
  err : Bool
deriving DecidableEq

/-- The two `json.Unmarshal` calls of the controller: into
`[]map[string]string` (the manifest) and into `[]string` (an ancestor chain). -/
structure Json where
  UnmarshalImages : String → Decoded (List GoMap)
  UnmarshalParents : String → Decoded (List String)

/-! ## Responses -/

/-- Body written to the response: literal bytes, or the value handed to
`json.Marshal` (the `results` slice of `GetRepositoryImages`, one `id` entry per
element, or the `results` map of `GetRepositoryTags`).  The marshalled text is
not modelled; a slice is given by its elements, whether it is nil or not. -/
inductive Body where
  | raw (text : String)
  | images (ids : List String)
  | tags (entries : GoMap)
deriving DecidableEq

/-- Status and body set by a handler. -/
structure Response where
  status : Nat
  body : Body
deriving DecidableEq

/-- How a handler ends: with the response it set, or with a Go runtime panic. -/
inductive Outcome where
  | response (r : Response)
  | panic (reason : String)
deriving DecidableEq

/-- Body `{"error":"<msg>"}`. -/
def errorBody (msg : String) : Body := .raw ("\x7b\"error\":\"" ++ msg ++ "\"\x7d")

/-- Body of the successful writes, the two bytes `""`. -/
def emptyBody : Body := .raw "\"\""

/-! ## PutRepositoryImages -/

/-- Engine calls of `PutRepositoryImages` that return an error: the repository
read, the image read of the k-th loop iteration, the three updates. -/
structure PutRepositoryImagesFaults where
  getRepository : Bool
  getImage : Nat → Bool
  updateUploaded : Bool
  updateCheckSumed : Bool
  updateSize : Bool

/-- State at the end of the loop over the manifest: a response was already
sent (`StopRun` inside the loop), or the loop ended (by exhaustion or `break`)
with the two flags and the accumulated size. -/
inductive Scan where
  | stop (r : Response)
  | done (uploaded checksumed : Bool) (size : Int)
deriving DecidableEq

/-- The loop `for _, i := range images` of `PutRepositoryImages`, from
iteration `k` with `size` accumulated so far. -/
def scanImages (getErr : Nat → Bool) (db : Engine) : List GoMap → Nat → Int → Scan
  | [], _, size => .done true true size
  | i :: rest, k, size =>
    if getErr k then .stop ⟨400, errorBody "Search image error."⟩
    else
      match db.getImage (i.index "id") with
      | none => .stop ⟨404, errorBody "Cloud not found image."⟩
      | some image =>
        if image.Uploaded = false then .done false true size
        else if image.CheckSumed = false then .done true false size
        else scanImages getErr db rest (k + 1) (wrapInt64 (size + image.Size))

/-- The three updates at the end of `PutRepositoryImages`, on the row `id`. -/
def commitRollup (f : PutRepositoryImagesFaults) (db : Engine) (id : Nat) (size : Int) :
    Engine × Response :=
  if f.updateUploaded then
    (db, ⟨400, errorBody "Update the repository uploaded flag error, please try again."⟩)
  else
    let db1 := db.updateRepository id (fun r => { r with Uploaded := true })
    if f.updateCheckSumed then
      (db1, ⟨400, errorBody "Update the repository checksumed flag error, please try again."⟩)
    else
      let db2 := db1.updateRepository id (fun r => { r with CheckSumed := true })
      if f.updateSize then
        (db2, ⟨400, errorBody "Update the repository size error, please try again."⟩)
      else
        (db2.updateRepository id (fun r => { r with Size := size }), ⟨204, emptyBody⟩)

/-- Handler `PutRepositoryImages`.  The error of `json.Unmarshal` is not
looked at: the loop runs over whatever the decoder left in `images`. -/
def PutRepositoryImages (J : Json) (f : PutRepositoryImagesFaults) (db : Engine)
    (ns name : String) : Engine × Response :=
  if f.getRepository then (db, ⟨400, errorBody "Search repository error."⟩)
  else
    match db.getRepository ns name with
    | none => (db, ⟨404, errorBody "Cloud not found repository."⟩)
    | some repo =>
      let images := (J.UnmarshalImages repo.JSON).value
      match scanImages f.getImage db images 0 0 with
      | .stop r => (db, r)
      | .done uploaded checksumed size =>
        if uploaded = false then
          (db, ⟨400, errorBody "The image layer upload not complete, please try again."⟩)
        else if checksumed = false then
          (db, ⟨400, errorBody "The image layer upload checksumed error, please try again."⟩)
        else commitRollup f db repo.Id size

/-! ## PutRepository -/

/-- Engine calls of `PutRepository` that return an error: the token update,
the repository read, the final update or insert. -/
structure PutRepositoryFaults where
  updateToken : Bool
  getRepository : Bool
  write : Bool

/-- Handler `PutRepository`, called by `user` with the request `body`.
`signature` is the hex digest the handler derives from the user and the clock.
An existing row has only its `JSON` column replaced. -/
def PutRepository (f : PutRepositoryFaults) (db : Engine) (user : User) (signature : String)
    (ns name body : String) : Engine × Response :=
  if user.Username ≠ ns then (db, ⟨400, errorBody "username != namespace."⟩)
  else
    let token := "Token signature=" ++ signature ++ ",repository=\"" ++ ns ++ "/" ++ name ++
      "\",access=write"
    if f.updateToken then (db, ⟨400, errorBody "Update token error."⟩)
    else
      let db1 := db.updateUserToken user.Id token
      if f.getRepository then (db1, ⟨400, errorBody "Search repository error."⟩)
      else
        match db1.getRepository ns name with
        | some repo =>
          if f.write then (db1, ⟨400, errorBody "Update the repository JSON data error."⟩)
          else (db1.updateRepository repo.Id (fun r => { r with JSON := body }), ⟨200, emptyBody⟩)
        | none =>
          if f.write then
            (db1, ⟨400, .raw
              "\x7b\"error\":\"Create the repository record error: \" + err.Error()\x7d"⟩)
          else
            (db1.insertRepository
              { Id := 0, Namespace := ns, Repository := name, JSON := body,
                Uploaded := false, CheckSumed := false, Size := 0 },
             ⟨200, emptyBody⟩)

/-! ## PutTag -/

/-- Character class `[[:alnum:]]`: ASCII letters and digits. -/
def isAlnum (c : Char) : Bool := c.isAlphanum

/-- Match of the pattern `"([[:alnum:]]+)"` starting exactly at the head of the
input: the captured group. -/
def matchQuoted : List Char → Option (List Char)
  | '"' :: rest =>
    let tok := rest.takeWhile isAlnum
    if tok ≠ [] ∧ (rest.dropWhile isAlnum).head? = some '"' then some tok else none
  | _ => none

/-- The call `r.FindStringSubmatch(body)` for the pattern `"([[:alnum:]]+)"`,
on the characters of the body: the leftmost match and its group, or the nil
slice. -/
def FindStringSubmatch : List Char → List String
  | [] => []
  | c :: cs =>
    match matchQuoted (c :: cs) with
    | some tok => [String.mk ('"' :: tok ++ ['"']), String.mk tok]
    | none => FindStringSubmatch cs

/-- Engine calls of `PutTag` that return an error. -/
structure PutTagFaults where
  getRepository : Bool
  getTag : Bool
  write : Bool

/-- Handler `PutTag`.  `imageIds[1]` is evaluated without a length check, so
a body without a match ends the handler with an index-out-of-range panic.
`Update(tag)` writes the non-empty fields of the bean to the row. -/
def PutTag (f : PutTagFaults) (db : Engine) (ns name tagName agent body : String) :
    Engine × Outcome :=
  if f.getRepository then
    (db, .response ⟨400, errorBody "Unknow namespace and repository."⟩)
  else
    match db.getRepository ns name with
    | none => (db, .response ⟨400, errorBody "Unknow namespace and repository."⟩)
    | some repository =>
      if f.getTag then (db, .response ⟨400, errorBody "Search tag encounter error."⟩)
      else
        let has := db.getTag tagName repository.Id
        let imageIds := FindStringSubmatch body.toList
        match imageIds[1]? with
        | none => (db, .panic "runtime error: index out of range")
        | some imageId =>
          match has with
          | some tag =>
            if f.write then (db, .response ⟨400, errorBody "Update the tag data error."⟩)
            else
              (db.updateTag tag.Id (fun t =>
                  { t with Name := tagName, Repository := repository.Id, ImageId := imageId,
                           Agent := if agent = "" then t.Agent else agent }),
               .response ⟨200, emptyBody⟩)
          | none =>
            if f.write then (db, .response ⟨400, errorBody "Create the tag record error."⟩)
            else
              (db.insertTag
                  { Id := 0, Name := tagName, ImageId := imageId, Agent := agent,
                    Repository := repository.Id },
               .response ⟨200, emptyBody⟩)

/-! ## GetRepositoryImages -/

/-- Modelled from the spec: `utils.RemoveDuplicateString` (package `utils` is
not part of the controller file), the order-preserving deduplication pass in
which each string is kept once, at the position of its first occurrence. -/
def RemoveDuplicateString : List String → List String
  | [] => []
  | x :: xs => x :: (RemoveDuplicateString xs).filter (fun y => decide (y ≠ x))

/-- Engine calls of `GetRepositoryImages` that return an error: the repository
read, the tag query, the image read of the k-th loop iteration. -/
structure GetRepositoryImagesFaults where
  getRepository : Bool
  findTags : Bool
  getImage : Nat → Bool

/-- The loop `for _, tag := range tags` of `GetRepositoryImages`, from
iteration `k` with the accumulator `images`: each decoded chain is put in
front of the accumulator (`images = append(parents, images...)`). -/
def collectParents (J : Json) (getErr : Nat → Bool) (db : Engine) :
    List Tag → Nat → List String → Except Response (List String)
  | [], _, images => .ok images
  | tag :: rest, k, images =>
    if getErr k then .error ⟨400, errorBody "Search image error."⟩
    else
      match db.getImage tag.ImageId with
      | none => .error ⟨400, errorBody "Search image error."⟩
      | some image =>
        let parents := J.UnmarshalParents image.ParentJSON
        if parents.err then
          .error ⟨400, errorBody "Decode the parent image json data encouter error."⟩
        else collectParents J getErr db rest (k + 1) (parents.value ++ images)

/-- Handler `GetRepositoryImages`. -/
def GetRepositoryImages (J : Json) (f : GetRepositoryImagesFaults) (db : Engine)
    (ns name : String) : Response :=
  if f.getRepository then ⟨400, errorBody "Search repository error."⟩
  else
    match db.getUploadedRepository ns name with
    | none => ⟨404, errorBody "Cloud not found repository."⟩
    | some repo =>
      if f.findTags then ⟨400, errorBody "Search repository tag error."⟩
      else
        let tags := db.findTags repo.Id
        if tags.length = 0 then ⟨404, errorBody "Cloud not found any tag."⟩
        else
          match collectParents J f.getImage db tags 0 [] with
          | .error r => r
          | .ok images => ⟨200, .images (RemoveDuplicateString images)⟩

/-! ## GetRepositoryTags -/

/-- Engine calls of `GetRepositoryTags` that return an error. -/
structure GetRepositoryTagsFaults where
  getRepository : Bool
  findTags : Bool

/-- The loop `results[v.Name] = v.ImageId` over the tags. -/
def tagResults (tags : List Tag) : GoMap :=
  tags.foldl (fun results v => results.set v.Name v.ImageId) []

/-- Handler `GetRepositoryTags`. -/
def GetRepositoryTags (f : GetRepositoryTagsFaults) (db : Engine) (ns name : String) :
    Response :=
  if f.getRepository then ⟨400, errorBody "Search repository error."⟩
  else
    match db.getUploadedRepository ns name with
    | none => ⟨404, errorBody "Cloud not found repository."⟩
    | some repo =>
      if f.findTags then ⟨400, errorBody "Search repository tag error."⟩
      else
        let tags := db.findTags repo.Id
        if tags.length = 0 then ⟨404, errorBody "Cloud not found any tag."⟩
        else ⟨200, .tags (tagResults tags)⟩

/-! ## A concrete decoder

`goJson` decodes the JSON texts built from arrays, objects, strings and
`null`.  Every other text is treated as `json.Unmarshal` treats a text that is
not valid JSON: an error, and nothing decoded.  It is used to run the handlers
on the scenarios; the general theorems are stated for every decoder. -/

/-- Parsed JSON text. -/
inductive JValue where
  | null
  | str (s : String)
  | arr (items : List JValue)
  | obj (members : List (String × JValue))

/-- Drops leading JSON white space. -/
def skipWs : List Char → List Char
  | [] => []
  | c :: cs => if c = ' ' ∨ c = '\n' ∨ c = '\t' ∨ c = '\r' then skipWs cs else c :: cs

/-- Reads a string after its opening quote, up to the closing quote; `acc`
holds the characters read so far, last first. -/
def parseString : List Char → List Char → Option (String × List Char)
  | [], _ => none
  | '"' :: cs, acc => some (String.mk acc.reverse, cs)
  | '\\' :: '"' :: cs, acc => parseString cs ('"' :: acc)
  | '\\' :: '\\' :: cs, acc => parseString cs ('\\' :: acc)
  | '\\' :: '/' :: cs, acc => parseString cs ('/' :: acc)
  | '\\' :: _, _ => none
  | c :: cs, acc => if c.toNat < 32 then none else parseString cs (c :: acc)

mutual
/-- Reads one JSON value; the first argument bounds the nesting and length. -/
def parseValue : Nat → List Char → Option (JValue × List Char)
  | 0, _ => none
  | n + 1, cs =>
    match skipWs cs with
    | '"' :: r => (parseString r []).map (fun p => (JValue.str p.1, p.2))
    | 'n' :: 'u' :: 'l' :: 'l' :: r => some (JValue.null, r)
    | '[' :: r =>
      match skipWs r with
      | ']' :: r2 => some (JValue.arr [], r2)
      | r2 => parseItems n r2 []
    | '\x7b' :: r =>
      match skipWs r with
      | '\x7d' :: r2 => some (JValue.obj [], r2)
      | r2 => parseMembers n r2 []
    | _ => none
/-- Reads the items of an array up to its closing bracket. -/
def parseItems : Nat → List Char → List JValue → Option (JValue × List Char)
  | 0, _, _ => none
  | n + 1, cs, acc =>
    match parseValue n cs with
    | none => none
    | some (v, r) =>
      match skipWs r with
      | ',' :: r2 => parseItems n r2 (v :: acc)
      | ']' :: r2 => some (JValue.arr (v :: acc).reverse, r2)
      | _ => none
/-- Reads the members of an object up to its closing brace. -/
def parseMembers : Nat → List Char → List (String × JValue) → Option (JValue × List Char)
  | 0, _, _ => none
  | n + 1, cs, acc =>
    match skipWs cs with
    | '"' :: r =>
      match parseString r [] with
      | none => none
      | some (k, r1) =>
        match skipWs r1 with
        | ':' :: r2 =>
          match parseValue n r2 with
          | none => none
          | some (v, r3) =>
            match skipWs r3 with
            | ',' :: r4 => parseMembers n r4 ((k, v) :: acc)
            | '\x7d' :: r4 => some (JValue.obj ((k, v) :: acc).reverse, r4)
            | _ => none
        | _ => none
    | _ => none
end

/-- Parses a whole text: one value, then only white space. -/
def parseJson (text : String) : Option JValue :=
  match parseValue (text.length + 1) text.toList with
  | some (v, r) => if skipWs r = [] then some v else none
  | none => none

/-- Decoding of one array element into `map[string]string`: the map, and
whether a value of the wrong type was met (it is skipped, as the zero value). -/
def decodeMap : JValue → GoMap × Bool
  | .obj members =>
    members.foldl (fun acc kv =>
      match kv.2 with
      | .str s => (acc.1.set kv.1 s, acc.2)
      | .null => (acc.1.set kv.1 "", acc.2)
      | _ => (acc.1.set kv.1 "", true)) ([], false)
  | .null => ([], false)
  | _ => ([], true)

/-- Decoding into `[]map[string]string`. -/
def decodeImages : Option JValue → Decoded (List GoMap)
  | some (.arr items) =>
    ⟨items.map (fun v => (decodeMap v).1), items.any (fun v => (decodeMap v).2)⟩
  | some .null => ⟨[], false⟩
  | _ => ⟨[], true⟩

/-- Decoding of one array element into `string`. -/
def decodeString : JValue → String × Bool
  | .str s => (s, false)
  | .null => ("", false)
  | _ => ("", true)

/-- Decoding into `[]string`. -/
def decodeParents : Option JValue → Decoded (List String)
  | some (.arr items) =>
    ⟨items.map (fun v => (decodeString v).1), items.any (fun v => (decodeString v).2)⟩
  | some .null => ⟨[], false⟩
  | _ => ⟨[], true⟩

/-- The concrete decoder. -/
def goJson : Json where
  UnmarshalImages := fun text => decodeImages (parseJson text)
  UnmarshalParents := fun text => decodeParents (parseJson text)

/-! ## Vocabulary of the properties -/

/-- Run of `PutRepositoryImages` in which no engine call fails. -/
def PutRepositoryImagesFaults.none : PutRepositoryImagesFaults :=
  ⟨false, fun _ => false, false, false, false⟩

/-- Image ids of the stored manifest of a repository, in manifest order: the
`id` entry of each element the decoder yields for the stored text. -/
def manifestIds (J : Json) (repo : Repository) : List String :=
  (J.UnmarshalImages repo.JSON).value.map (fun i => i.index "id")

/-- The read of the image id returns a record with both flags set. -/
def ImageComplete (db : Engine) (imageId : String) : Prop :=
  ∃ image, db.getImage imageId = some image ∧ image.Uploaded = true ∧ image.CheckSumed = true

/-- The image table holds a record of this image id with both flags set. -/
def HasCompleteImage (db : Engine) (imageId : String) : Prop :=
  ∃ image ∈ db.images,
    image.ImageId = imageId ∧ image.Uploaded = true ∧ image.CheckSumed = true

/-- Stored size of an image (zero when there is no record). -/
def imageSize (db : Engine) (imageId : String) : Int :=
  ((db.getImage imageId).map (fun image => image.Size)).getD 0

/-- Exact sum of the stored sizes of a list of image ids. -/
def totalSize (db : Engine) (ids : List String) : Int :=
  (ids.map (imageSize db)).sum

/-! ## Scenarios -/

/-- Repository `alice/app` registered with the manifest of `img1` and `img2`. -/
def repoA : Repository :=
  ⟨1, "alice", "app", "[\x7b\"id\":\"img1\"\x7d,\x7b\"id\":\"img2\"\x7d]", false, false, 0⟩

/-- Scenario A: `img1` and `img2` uploaded and checksummed, sizes 10 and 20. -/
def scenarioA : Engine :=
  { users := [], repositories := [repoA], tags := [],
    images := [⟨1, "img1", "[]", true, true, 10⟩, ⟨2, "img2", "[\"img1\"]", true, true, 20⟩] }

/-- Scenario B: `img1` complete, `img2` not uploaded. -/
def scenarioB : Engine :=
  { users := [], repositories := [repoA], tags := [],
    images := [⟨1, "img1", "[]", true, true, 10⟩, ⟨2, "img2", "[\"img1\"]", false, false, 20⟩] }

/-- Run of `GetRepositoryImages` in which no engine call fails. -/
def GetRepositoryImagesFaults.none : GetRepositoryImagesFaults := ⟨false, false, fun _ => false⟩

/-- Run of `GetRepositoryTags` in which no engine call fails. -/
def GetRepositoryTagsFaults.none : GetRepositoryTagsFaults := ⟨false, false⟩

/-- The head image of the tag exists and its stored ancestor chain decodes,
without error, to `chain`. -/
def HasChain (J : Json) (db : Engine) (tag : Tag) (chain : List String) : Prop :=
  ∃ image, db.getImage tag.ImageId = some image ∧
    J.UnmarshalParents image.ParentJSON = ⟨chain, false⟩

/-- Scenario C: `alice/app` is complete, tag `latest` points at `img2` (chain
`[img1]`) and tag `v1` at `img1` (empty chain). -/
def scenarioC : Engine :=
  { users := [],
    repositories := [{ repoA with Uploaded := true, CheckSumed := true, Size := 30 }],
    tags := [⟨1, "latest", "img2", "docker", 1⟩, ⟨2, "v1", "img1", "docker", 1⟩],
    images := [⟨1, "img1", "[]", true, true, 10⟩, ⟨2, "img2", "[\"img1\"]", true, true, 20⟩] }

/-- A complete `alice/app` with tag `v1` at img2 and tag `v2` at img3, whose
stored chains share img2 and img1. -/
def scenarioShared : Engine :=
  { users := [],
    repositories := [{ repoA with Uploaded := true, CheckSumed := true, Size := 30 }],
    tags := [⟨1, "v1", "img2", "docker", 1⟩, ⟨2, "v2", "img3", "docker", 1⟩],
    images := [⟨1, "img1", "[\"img1\"]", true, true, 10⟩,
               ⟨2, "img2", "[\"img2\",\"img1\"]", true, true, 20⟩,
               ⟨3, "img3", "[\"img3\",\"img2\",\"img1\"]", true, true, 5⟩] }

/-- Run of `PutRepository` in which no engine call fails. -/
def PutRepositoryFaults.none : PutRepositoryFaults := ⟨false, false, false⟩

/-- Run of `PutTag` in which no engine call fails. -/
def PutTagFaults.none : PutTagFaults := ⟨false, false, false⟩

/-- The active user `alice`. -/
def alice : User := ⟨1, "alice", "secret", "", true⟩

/-- Tables before any push: the user `alice`, no repository, tag or image. -/
def startStore : Engine := { users := [alice], repositories := [], tags := [], images := [] }

/-- Run of `PutRepositoryImages` in which only the update of the `CheckSumed`
column fails. -/
def failCheckSumedUpdate : PutRepositoryImagesFaults :=
  ⟨false, fun _ => false, false, true, false⟩

/-! ## Sequences of push calls -/

/-- One push-side request. -/
inductive Call where
  | putRepository (f : PutRepositoryFaults) (user : User) (signature ns name body : String)
  | putTag (f : PutTagFaults) (ns name tagName agent body : String)
  | putRepositoryImages (f : PutRepositoryImagesFaults) (ns name : String)

/-- Tables after the request. -/
def Call.run (J : Json) (db : Engine) : Call → Engine
  | .putRepository f user signature ns name body =>
    (PutRepository f db user signature ns name body).1
  | .putTag f ns name tagName agent body => (PutTag f db ns name tagName agent body).1
  | .putRepositoryImages f ns name => (PutRepositoryImages J f db ns name).1

/-- Tables after a sequence of requests. -/
def runCalls (J : Json) (db : Engine) (calls : List Call) : Engine :=
  calls.foldl (Call.run J) db

/-- The request is not a registration over a record that already has both
`Uploaded` and `CheckSumed` set. -/
def Call.keepsCompleted (db : Engine) : Call → Bool
  | .putRepository _ _ _ ns name _ =>
    match db.getRepository ns name with
    | some r => !(r.Uploaded && r.CheckSumed)
    | none => true
  | _ => true

/-- No request of the sequence registers over a record that, when the request
arrives, has both `Uploaded` and `CheckSumed` set. -/
def keepCompleted (J : Json) : Engine → List Call → Bool
  | _, [] => true
  | db, c :: cs => c.keepsCompleted db && keepCompleted J (c.run J db) cs

/-- Invariant of the repository table: row ids are distinct, and a row with
`CheckSumed` set has `Uploaded` set and a manifest of complete images. -/
def RollupInv (J : Json) (db : Engine) : Prop :=
  (db.repositories.map (fun r => r.Id)).Nodup ∧
  ∀ r ∈ db.repositories, r.CheckSumed = true →
    r.Uploaded = true ∧ ∀ id ∈ manifestIds J r, ImageComplete db id

/-- Tables with the images of scenario A and nothing pushed yet. -/
def pushStart : Engine := { startStore with images := scenarioA.images }

/-- A whole push of `alice/app`: registration, tag write, completion check. -/
def pushCalls : List Call :=
  [.putRepository .none alice "0f" "alice" "app" repoA.JSON,
   .putTag .none "alice" "app" "latest" "docker" "\"img2\"",
   .putRepositoryImages .none "alice" "app"]

/-- The start of a push of `alice/app`: registration and one tag write, no
completion check yet. -/
def unfinishedCalls : List Call :=
  [.putRepository .none alice "0f" "alice" "app" repoA.JSON,
   .putTag .none "alice" "app" "latest" "docker" "\"img2\""]

/-- Registration with an empty manifest, completion check, then registration
again with a manifest that names `img1`. -/
def reRegisterCalls : List Call :=
  [.putRepository .none alice "0f" "alice" "app" "[]",
   .putRepositoryImages .none "alice" "app",
   .putRepository .none alice "0f" "alice" "app" "[\x7b\"id\":\"img1\"\x7d]"]

/-! ## Sequences of tag writes -/

/-- One `PutTag` request on a fixed repository. -/
structure TagWrite where
  f : PutTagFaults
  tagName : String
  agent : String
  body : String

/-- Image id given in the request: the group of the first match in the body. -/
def TagWrite.imageId (w : TagWrite) : Option String := (FindStringSubmatch w.body.toList)[1]?

/-- Tables after a sequence of `PutTag` requests that all answer 200; `none`
when one of them does not. -/
def putTags (db : Engine) (ns name : String) : List TagWrite → Option Engine
  | [] => some db
  | w :: ws =>
    match PutTag w.f db ns name w.tagName w.agent w.body with
    | (db1, .response r) => if r.status = 200 then putTags db1 ns name ws else none
    | (_, .panic _) => none

/-- Image id given in the most recent write of the tag name, if any. -/
def lastWritten (ws : List TagWrite) (n : String) : Option String :=
  (ws.reverse.find? (fun w => decide (w.tagName = n))).bind TagWrite.imageId

/-- Invariant of the tag table along the writes `done` on the repository row
`rid`: row ids are distinct, the repository has one tag per name, every write
gave an image id, and the tag of each name holds the image id written last. -/
def TagInv (db : Engine) (rid : Nat) (done : List TagWrite) : Prop :=
  (db.tags.map (fun t => t.Id)).Nodup ∧
  ((db.findTags rid).map (fun t => t.Name)).Nodup ∧
  (∀ w ∈ done, w.imageId ≠ none) ∧
  ∀ n, (db.getTag n rid).map (fun t => t.ImageId) = lastWritten done n

/-- Scenario A after completion, before any tag is written. -/
def scenarioNoTags : Engine :=
  { scenarioA with
    repositories := [{ repoA with Uploaded := true, CheckSumed := true, Size := 30 }] }

/-- Three tag writes: `latest` to img1, `v1` to img1, `latest` again to img2. -/
def tagWrites : List TagWrite :=
  [⟨.none, "latest", "docker", "\"img1\""⟩, ⟨.none, "v1", "docker", "\"img1\""⟩,
   ⟨.none, "latest", "docker", "\"img2\""⟩]

/-! ## Lemmas on the engine -/

theorem wrapInt64_add_left (a b : Int) : wrapInt64 (wrapInt64 a + b) = wrapInt64 (a + b) := by
  unfold wrapInt64
  omega

theorem wrapInt64_of_fits (a : Int) (h1 : -2 ^ 63 ≤ a) (h2 : a < 2 ^ 63) : wrapInt64 a = a := by
  unfold wrapInt64
  omega

theorem find?_map_of_key {α : Type} (p : α → Bool) (g : α → α) (hg : ∀ x, p (g x) = p x)
    (l : List α) : (l.map g).find? p = (l.find? p).map g := by
  induction l with
  | nil => rfl
  | cons x xs ih =>
    simp only [List.map_cons, List.find?_cons, hg]
    cases p x <;> simp [ih]

theorem getRepository_updateRepository (db : Engine) (id : Nat) (f : Repository → Repository)
    (hns : ∀ r, (f r).Namespace = r.Namespace) (hname : ∀ r, (f r).Repository = r.Repository)
    (ns name : String) :
    (db.updateRepository id f).getRepository ns name =
      (db.getRepository ns name).map (fun r => if r.Id = id then f r else r) := by
  unfold Engine.getRepository Engine.updateRepository
  apply find?_map_of_key
  intro x
  by_cases h : x.Id = id <;> simp [h, hns, hname]

theorem getImage_updateRepository (db : Engine) (id : Nat) (f : Repository → Repository)
    (imageId : String) : (db.updateRepository id f).getImage imageId = db.getImage imageId := rfl

theorem scanImages_congr (g : Nat → Bool) (db db2 : Engine) (h : db2.images = db.images)
    (images : List GoMap) (k : Nat) (size : Int) :
    scanImages g db2 images k size = scanImages g db images k size := by
  induction images generalizing k size with
  | nil => rfl
  | cons i rest ih => simp only [scanImages, Engine.getImage, h, ih]

theorem scanImages_complete (db : Engine) (images : List GoMap)
    (h : ∀ i ∈ images, ImageComplete db (i.index "id")) (k : Nat) (s : Int) :
    scanImages (fun _ => false) db images k (wrapInt64 s) =
      .done true true (wrapInt64 (s + totalSize db (images.map (fun i => i.index "id")))) := by
  induction images generalizing k s with
  | nil => simp [scanImages, totalSize]
  | cons i rest ih =>
    obtain ⟨image, hget, hu, hc⟩ := h i (List.mem_cons_self _ _)
    have hrest : ∀ j ∈ rest, ImageComplete db (j.index "id") :=
      fun j hj => h j (List.mem_cons_of_mem _ hj)
    simp only [scanImages, hget, hu, hc, wrapInt64_add_left]
    simp only [Bool.false_eq_true, if_false]
    rw [ih hrest]
    simp [totalSize, imageSize, hget, add_assoc]

theorem commitRollup_none (db : Engine) (id : Nat) (size : Int) :
    commitRollup PutRepositoryImagesFaults.none db id size =
      (db.updateRepository id
        (fun r => { r with Uploaded := true, CheckSumed := true, Size := size }),
       ⟨204, emptyBody⟩) := by
  simp only [commitRollup, PutRepositoryImagesFaults.none, Engine.updateRepository,
    Bool.false_eq_true, if_false, List.map_map, Prod.mk.injEq, and_true]
  congr 1
  apply List.map_congr_left
  intro r _
  by_cases h : r.Id = id <;> simp [h]

theorem updateRepository_idem (db : Engine) (id : Nat) (f : Repository → Repository)
    (hid : ∀ r, (f r).Id = r.Id) (hf : ∀ r, f (f r) = f r) :
    (db.updateRepository id f).updateRepository id f = db.updateRepository id f := by
  simp only [Engine.updateRepository, List.map_map]
  congr 1
  apply List.map_congr_left
  intro r _
  by_cases h : r.Id = id <;> simp [h, hid, hf]

theorem getRepository_id_of_some (db : Engine) (ns name : String) (repo : Repository)
    (h : db.getRepository ns name = some repo) :
    repo ∈ db.repositories ∧ repo.Namespace = ns ∧ repo.Repository = name := by
  unfold Engine.getRepository at h
  have h1 := List.mem_of_find?_eq_some h
  have h2 := List.find?_some h
  simp only [Bool.and_eq_true, decide_eq_true_eq] at h2
  exact ⟨h1, h2.1, h2.2⟩

/-! ## C1 -/

/-- C1: when the repository exists, every image id of its stored manifest has
an image record with both flags set and no engine call fails,
`PutRepositoryImages` answers 204 and leaves the repository record with
`Uploaded = true`, `CheckSumed = true` and `Size` the `int64` sum of the sizes
of the manifest images, which is their exact sum whenever that fits an `int64`;
a second call on the resulting tables answers 204 again and leaves them
unchanged. -/
theorem putRepositoryImages_complete (J : Json) (db : Engine) (ns name : String)
    (repo : Repository) (hrepo : db.getRepository ns name = some repo)
    (hall : ∀ id ∈ manifestIds J repo, ImageComplete db id) :
    (PutRepositoryImages J .none db ns name).2 = ⟨204, emptyBody⟩ ∧
    (PutRepositoryImages J .none db ns name).1.getRepository ns name =
      some { repo with Uploaded := true, CheckSumed := true,
                       Size := wrapInt64 (totalSize db (manifestIds J repo)) } ∧
    (-2 ^ 63 ≤ totalSize db (manifestIds J repo) → totalSize db (manifestIds J repo) < 2 ^ 63 →
      ((PutRepositoryImages J .none db ns name).1.getRepository ns name).map (fun r => r.Size) =
        some (totalSize db (manifestIds J repo))) ∧
    PutRepositoryImages J .none (PutRepositoryImages J .none db ns name).1 ns name =
      ((PutRepositoryImages J .none db ns name).1, ⟨204, emptyBody⟩) := by
  have hscan : ∀ db2 : Engine, db2.images = db.images →
      scanImages (fun _ => false) db2 (J.UnmarshalImages repo.JSON).value 0 0 =
        .done true true (wrapInt64 (totalSize db (manifestIds J repo))) := by
    intro db2 h2
    rw [scanImages_congr _ db db2 h2]
    have h0 : (0 : Int) = wrapInt64 0 := by unfold wrapInt64; omega
    have hall2 : ∀ i ∈ (J.UnmarshalImages repo.JSON).value, ImageComplete db (i.index "id") :=
      fun i hi => hall _ (List.mem_map_of_mem _ hi)
    have := scanImages_complete db _ hall2 0 0
    rw [← h0] at this
    simpa [manifestIds] using this
  have hput : PutRepositoryImages J .none db ns name =
      (db.updateRepository repo.Id (fun r => { r with
          Uploaded := true, CheckSumed := true,
          Size := wrapInt64 (totalSize db (manifestIds J repo)) }), ⟨204, emptyBody⟩) := by
    have h1 := hscan db rfl
    simp only [PutRepositoryImagesFaults.none] at h1 ⊢
    unfold PutRepositoryImages
    simp only [hrepo, h1, Bool.false_eq_true, if_false]
    exact commitRollup_none db repo.Id _
  have hget : (db.updateRepository repo.Id (fun r => { r with
          Uploaded := true, CheckSumed := true,
          Size := wrapInt64 (totalSize db (manifestIds J repo)) })).getRepository ns name =
      some { repo with Uploaded := true, CheckSumed := true,
                       Size := wrapInt64 (totalSize db (manifestIds J repo)) } := by
    rw [getRepository_updateRepository db repo.Id (fun r => { r with
          Uploaded := true, CheckSumed := true,
          Size := wrapInt64 (totalSize db (manifestIds J repo)) }) (fun _ => rfl) (fun _ => rfl),
      hrepo]
    simp
  rw [hput]
  refine ⟨rfl, hget, ?_, ?_⟩
  · intro h1 h2
    rw [hget]
    simp [wrapInt64_of_fits _ h1 h2]
  · have h1 := hscan (db.updateRepository repo.Id (fun r => { r with
          Uploaded := true, CheckSumed := true,
          Size := wrapInt64 (totalSize db (manifestIds J repo)) })) rfl
    simp only [PutRepositoryImagesFaults.none] at h1 ⊢
    unfold PutRepositoryImages
    simp only [hget, h1, Bool.false_eq_true, if_false]
    have := commitRollup_none (db.updateRepository repo.Id (fun r => { r with
          Uploaded := true, CheckSumed := true,
          Size := wrapInt64 (totalSize db (manifestIds J repo)) })) repo.Id
          (wrapInt64 (totalSize db (manifestIds J repo)))
    simp only [PutRepositoryImagesFaults.none] at this
    rw [this, updateRepository_idem db repo.Id (fun r => { r with
          Uploaded := true, CheckSumed := true,
          Size := wrapInt64 (totalSize db (manifestIds J repo)) }) (fun _ => rfl) (fun _ => rfl)]
    simp

/-- Witness for C1, scenario A: the call answers 204 and the record ends with
both flags set and size 30. -/
theorem putRepositoryImages_complete_witness :
    (PutRepositoryImages goJson .none scenarioA "alice" "app").2 = ⟨204, emptyBody⟩ ∧
    (PutRepositoryImages goJson .none scenarioA "alice" "app").1.getRepository "alice" "app" =
      some { repoA with Uploaded := true, CheckSumed := true, Size := 30 } := by
  have hm : manifestIds goJson repoA = ["img1", "img2"] := by decide
  have h := putRepositoryImages_complete goJson scenarioA "alice" "app" repoA (by decide)
    (by
      intro id hid
      rw [hm] at hid
      simp only [List.mem_cons, List.mem_singleton, List.not_mem_nil, or_false] at hid
      rcases hid with rfl | rfl
      · exact ⟨⟨1, "img1", "[]", true, true, 10⟩, by decide, rfl, rfl⟩
      · exact ⟨⟨2, "img2", "[\"img1\"]", true, true, 20⟩, by decide, rfl, rfl⟩)
  refine ⟨h.1, h.2.1.trans ?_⟩
  have ht : totalSize scenarioA (manifestIds goJson repoA) = 30 := by rw [hm]; decide
  rw [ht]
  decide

/-! ## C2 -/

theorem scanImages_stop_status (g : Nat → Bool) (db : Engine) (images : List GoMap) (k : Nat)
    (size : Int) (r : Response) (h : scanImages g db images k size = .stop r) :
    r.status = 400 ∨ r.status = 404 := by
  induction images generalizing k size with
  | nil => simp [scanImages] at h
  | cons i rest ih =>
    simp only [scanImages] at h
    split at h
    · cases h; exact Or.inl rfl
    · split at h
      · cases h; exact Or.inr rfl
      · split at h
        · cases h
        · split at h
          · cases h
          · exact ih _ _ h

theorem scanImages_done_complete (g : Nat → Bool) (db : Engine) (images : List GoMap) (k : Nat)
    (size s2 : Int) (h : scanImages g db images k size = .done true true s2) :
    ∀ i ∈ images, ImageComplete db (i.index "id") := by
  induction images generalizing k size with
  | nil => simp
  | cons i rest ih =>
    simp only [scanImages] at h
    split at h
    · cases h
    · split at h
      · cases h
      · rename_i image himage
        split at h
        · cases h
        · split at h
          · cases h
          · rename_i hu hc
            intro j hj
            rcases List.mem_cons.mp hj with rfl | hj
            · exact ⟨image, himage, by simpa using hu, by simpa using hc⟩
            · exact ih _ _ h j hj

theorem mem_RemoveDuplicateString (l : List String) (x : String) :
    x ∈ RemoveDuplicateString l ↔ x ∈ l := by
  induction l with
  | nil => simp [RemoveDuplicateString]
  | cons a l ih =>
    simp only [RemoveDuplicateString, List.mem_cons, List.mem_filter, ih, decide_eq_true_eq]
    by_cases h : x = a <;> simp [h]

theorem nodup_RemoveDuplicateString (l : List String) : (RemoveDuplicateString l).Nodup := by
  induction l with
  | nil => simp [RemoveDuplicateString]
  | cons a l ih =>
    simp only [RemoveDuplicateString, List.nodup_cons, List.mem_filter, decide_eq_true_eq]
    exact ⟨fun h => h.2 rfl, ih.filter _⟩

theorem collectParents_ok (J : Json) (db : Engine) (tags : List Tag)
    (chains : List (List String)) (h : List.Forall₂ (HasChain J db) tags chains)
    (k : Nat) (acc : List String) :
    collectParents J (fun _ => false) db tags k acc = .ok (chains.reverse.flatten ++ acc) := by
  induction h generalizing k acc with
  | nil => simp [collectParents]
  | cons hc _ ih =>
    obtain ⟨image, hget, hdec⟩ := hc
    simp [collectParents, hget, hdec, ih, List.append_assoc]

/-- C3: for a repository that the read of the handler returns, as it does
every pull-visible one, whose tags, in persisted order, are t1..tn (n > 0), whose head images exist with decodable ancestor chains c1..cn,
and with no engine failure, `GetRepositoryImages` answers 200 with the
first-occurrence deduplication of cn ++ ... ++ c1; the answer has no duplicate
and holds exactly the ids that occur in some chain. -/
theorem getRepositoryImages_resolves (J : Json) (db : Engine) (ns name : String)
    (repo : Repository) (hrepo : db.getUploadedRepository ns name = some repo)
    (htags : db.findTags repo.Id ≠ []) (chains : List (List String))
    (hchains : List.Forall₂ (HasChain J db) (db.findTags repo.Id) chains) :
    GetRepositoryImages J .none db ns name =
      ⟨200, .images (RemoveDuplicateString chains.reverse.flatten)⟩ ∧
    (RemoveDuplicateString chains.reverse.flatten).Nodup ∧
    ∀ id, id ∈ RemoveDuplicateString chains.reverse.flatten ↔ ∃ c ∈ chains, id ∈ c := by
  refine ⟨?_, nodup_RemoveDuplicateString _, ?_⟩
  · have h := collectParents_ok J db _ chains hchains 0 []
    have hlen : (db.findTags repo.Id).length ≠ 0 := by
      intro h0
      exact htags (List.length_eq_zero.mp h0)
    simp only [GetRepositoryImagesFaults.none] at h ⊢
    unfold GetRepositoryImages
    simp [hrepo, hlen, h]
  · intro id
    simp [mem_RemoveDuplicateString]

/-- Witness for C3: with tags `v1` and `v2` whose chains are [img2, img1] and
[img3, img2, img1], the answer is the chain of `v2` followed by nothing new. -/
theorem getRepositoryImages_resolves_witness :
    GetRepositoryImages goJson .none scenarioShared "alice" "app" =
      ⟨200, .images ["img3", "img2", "img1"]⟩ :=
  (getRepositoryImages_resolves goJson scenarioShared "alice" "app"
    { repoA with Uploaded := true, CheckSumed := true, Size := 30 } (by decide) (by decide)
    [["img2", "img1"], ["img3", "img2", "img1"]]
    (List.Forall₂.cons
      ⟨⟨2, "img2", "[\"img2\",\"img1\"]", true, true, 20⟩, by decide, by decide⟩
      (List.Forall₂.cons
        ⟨⟨3, "img3", "[\"img3\",\"img2\",\"img1\"]", true, true, 5⟩, by decide, by decide⟩
        List.Forall₂.nil))).1.trans (by decide)

/-! ## C4 -/

/-- C4, as the code has it: when the tags of a repository that the read of
the handler returns, as it does every pull-visible one, are
`latest` pointing at img2 and `v1` pointing at img1, in either persisted order,
the chain of img2 is [img1] and the chain of img1 is empty,
`GetRepositoryImages` answers 200 with exactly the one entry img1: only the
stored chains are returned, the head image img2 is not added. -/
theorem getRepositoryImages_two_tags (J : Json) (db : Engine) (ns name : String)
    (repo : Repository) (hrepo : db.getUploadedRepository ns name = some repo)
    (latest v1 : Tag) (hlatest : latest.ImageId = "img2") (hv1 : v1.ImageId = "img1")
    (htags : db.findTags repo.Id = [latest, v1] ∨ db.findTags repo.Id = [v1, latest])
    (img2 img1 : Image) (hget2 : db.getImage "img2" = some img2)
    (hchain2 : J.UnmarshalParents img2.ParentJSON = ⟨["img1"], false⟩)
    (hget1 : db.getImage "img1" = some img1)
    (hchain1 : J.UnmarshalParents img1.ParentJSON = ⟨[], false⟩) :
    GetRepositoryImages J .none db ns name = ⟨200, .images ["img1"]⟩ := by
  have h2 : HasChain J db latest ["img1"] := ⟨img2, hlatest ▸ hget2, hchain2⟩
  have h1 : HasChain J db v1 [] := ⟨img1, hv1 ▸ hget1, hchain1⟩
  rcases htags with ht | ht
  · have hc : List.Forall₂ (HasChain J db) (db.findTags repo.Id) [["img1"], []] := by
      rw [ht]
      exact .cons h2 (.cons h1 .nil)
    have h := collectParents_ok J db _ _ hc 0 []
    simp only [GetRepositoryImagesFaults.none] at h ⊢
    unfold GetRepositoryImages
    rw [ht] at h
    simp [hrepo, ht, h, RemoveDuplicateString]
  · have hc : List.Forall₂ (HasChain J db) (db.findTags repo.Id) [[], ["img1"]] := by
      rw [ht]
      exact .cons h1 (.cons h2 .nil)
    have h := collectParents_ok J db _ _ hc 0 []
    simp only [GetRepositoryImagesFaults.none] at h ⊢
    unfold GetRepositoryImages
    rw [ht] at h
    simp [hrepo, ht, h, RemoveDuplicateString]

/-- Witness for C4, scenario C: the pull manifest is `[img1]`. -/
theorem getRepositoryImages_two_tags_witness :
    GetRepositoryImages goJson .none scenarioC "alice" "app" = ⟨200, .images ["img1"]⟩ :=
  getRepositoryImages_two_tags goJson scenarioC "alice" "app"
    { repoA with Uploaded := true, CheckSumed := true, Size := 30 } (by decide)
    ⟨1, "latest", "img2", "docker", 1⟩ ⟨2, "v1", "img1", "docker", 1⟩ rfl rfl
    (Or.inl (by decide))
    ⟨2, "img2", "[\"img1\"]", true, true, 20⟩ ⟨1, "img1", "[]", true, true, 10⟩
    (by decide) (by decide) (by decide) (by decide)

/-- C4 fails as stated: in scenario C the answer is not the list of img1 and
img2; img2, the head of `latest`, is absent from it. -/
theorem getRepositoryImages_two_tags_counterexample :
    scenarioC.getUploadedRepository "alice" "app" =
      some { repoA with Uploaded := true, CheckSumed := true, Size := 30 } ∧
    (scenarioC.findTags 1).map (fun t => (t.Name, t.ImageId)) =
      [("latest", "img2"), ("v1", "img1")] ∧
    (scenarioC.getImage "img2").map (fun i => goJson.UnmarshalParents i.ParentJSON) =
      some ⟨["img1"], false⟩ ∧
    (scenarioC.getImage "img1").map (fun i => goJson.UnmarshalParents i.ParentJSON) =
      some ⟨[], false⟩ ∧
    GetRepositoryImages goJson .none scenarioC "alice" "app" ≠
      ⟨200, .images ["img1", "img2"]⟩ := by
  decide

/-! ## C5 -/

/-- C5 fails on the code: after the registration of `alice/app` and one tag
write, before any completion check, the record has `Uploaded = false` and
`CheckSumed = false`, and `GetRepositoryTags` and `GetRepositoryImages` answer 200
with the tag and the chain of its head image, where tables without the record
answer 404 with the not-found body.  Without any tag (scenario B) the answer is
404 with the no-tag body, which is not the not-found body either. -/
theorem incomplete_repository_served :
    (runCalls goJson pushStart unfinishedCalls).repositories = [repoA] ∧
    repoA.Uploaded = false ∧ repoA.CheckSumed = false ∧
    GetRepositoryTags .none (runCalls goJson pushStart unfinishedCalls) "alice" "app" =
      ⟨200, .tags [("latest", "img2")]⟩ ∧
    GetRepositoryImages goJson .none (runCalls goJson pushStart unfinishedCalls)
        "alice" "app" = ⟨200, .images ["img1"]⟩ ∧
    GetRepositoryTags .none pushStart "alice" "app" =
      ⟨404, errorBody "Cloud not found repository."⟩ ∧
    GetRepositoryImages goJson .none pushStart "alice" "app" =
      ⟨404, errorBody "Cloud not found repository."⟩ ∧
    GetRepositoryTags .none scenarioB "alice" "app" =
      ⟨404, errorBody "Cloud not found any tag."⟩ ∧
    GetRepositoryImages goJson .none scenarioB "alice" "app" =
      ⟨404, errorBody "Cloud not found any tag."⟩ := by
  decide

/-! ## C6 -/

/-- C6 fails on the code: `alice/app` is registered with the body `not json`,
which is stored as the manifest text; the decoder reports an error on it, and
`PutRepositoryImages` still answers 204 and sets `Uploaded` and `CheckSumed`
on the record, with size 0. -/
theorem putRepositoryImages_malformed_manifest :
    PutRepository .none startStore alice "0f" "alice" "app" "not json" =
      ({ startStore with
          users := [{ alice with
            Token := "Token signature=0f,repository=\"alice/app\",access=write" }],
          repositories := [⟨1, "alice", "app", "not json", false, false, 0⟩] },
       ⟨200, emptyBody⟩) ∧
    (goJson.UnmarshalImages "not json").err = true ∧
    PutRepositoryImages goJson .none
        (PutRepository .none startStore alice "0f" "alice" "app" "not json").1 "alice" "app" =
      ({ startStore with
          users := [{ alice with
            Token := "Token signature=0f,repository=\"alice/app\",access=write" }],
          repositories := [⟨1, "alice", "app", "not json", true, true, 0⟩] },
       ⟨204, emptyBody⟩) := by
  decide

/-! ## C7 -/

/-- C7, as the code has it: `PutRepositoryImages` writes the three rollup
fields by three successive updates, in the order `Uploaded`, `CheckSumed`,
`Size`.  For all tables and all failures of engine calls, after the call
either the tables are unchanged and the answer is an error, or the record has
only `Uploaded` set and the answer is the error of the `CheckSumed` update, or
it has `Uploaded` and `CheckSumed` set with its size unchanged and the answer
is the error of the `Size` update, or it holds the three new values and the
answer is 204. -/
theorem putRepositoryImages_commit_steps (J : Json) (f : PutRepositoryImagesFaults)
    (db : Engine) (ns name : String) :
    ((PutRepositoryImages J f db ns name).1 = db ∧
      ((PutRepositoryImages J f db ns name).2.status = 400 ∨
       (PutRepositoryImages J f db ns name).2.status = 404)) ∨
    ((PutRepositoryImages J f db ns name).1.getRepository ns name =
        (db.getRepository ns name).map (fun r => { r with Uploaded := true }) ∧
      (PutRepositoryImages J f db ns name).2 = ⟨400, errorBody
        "Update the repository checksumed flag error, please try again."⟩) ∨
    ((PutRepositoryImages J f db ns name).1.getRepository ns name =
        (db.getRepository ns name).map
          (fun r => { r with Uploaded := true, CheckSumed := true }) ∧
      (PutRepositoryImages J f db ns name).2 = ⟨400, errorBody
        "Update the repository size error, please try again."⟩) ∨
    (∃ size, (PutRepositoryImages J f db ns name).1.getRepository ns name =
        (db.getRepository ns name).map
          (fun r => { r with Uploaded := true, CheckSumed := true, Size := size }) ∧
      (PutRepositoryImages J f db ns name).2 = ⟨204, emptyBody⟩) := by
  unfold PutRepositoryImages
  by_cases hg : f.getRepository = true
  · simp [hg]
  rw [if_neg hg]
  cases hrepo : db.getRepository ns name with
  | none => simp
  | some repo =>
    simp only []
    cases hscan : scanImages f.getImage db (J.UnmarshalImages repo.JSON).value 0 0 with
    | stop r =>
      left
      exact ⟨rfl, scanImages_stop_status _ _ _ _ _ _ hscan⟩
    | done uploaded checksumed size =>
      cases uploaded
      · simp
      cases checksumed
      · simp
      have hcomp : ∀ (d : Engine) (g1 g2 : Repository → Repository),
          (∀ r, (g1 r).Id = r.Id) →
          (d.updateRepository repo.Id g1).updateRepository repo.Id g2 =
            d.updateRepository repo.Id (fun r => g2 (g1 r)) := by
        intro d g1 g2 hid
        simp only [Engine.updateRepository, List.map_map]
        congr 1
        apply List.map_congr_left
        intro r _
        by_cases h : r.Id = repo.Id <;> simp [h, hid]
      have hU := getRepository_updateRepository db repo.Id
        (fun r => { r with Uploaded := true }) (fun _ => rfl) (fun _ => rfl) ns name
      have hUC := getRepository_updateRepository db repo.Id
        (fun r => { r with Uploaded := true, CheckSumed := true })
        (fun _ => rfl) (fun _ => rfl) ns name
      have hUCS := getRepository_updateRepository db repo.Id
        (fun r => { r with Uploaded := true, CheckSumed := true, Size := size })
        (fun _ => rfl) (fun _ => rfl) ns name
      have hc1 := hcomp db (fun r => { r with Uploaded := true })
        (fun r => { r with CheckSumed := true }) (fun _ => rfl)
      have hc2 := hcomp db (fun r => { r with Uploaded := true, CheckSumed := true })
        (fun r => { r with Size := size }) (fun _ => rfl)
      rw [hrepo] at hU hUC hUCS
      simp only [Option.map_some', if_true] at hU hUC hUCS
      simp only [Bool.true_eq_false, if_false, commitRollup, Option.map_some']
      by_cases h1 : f.updateUploaded = true
      · simp [h1]
      by_cases h2 : f.updateCheckSumed = true
      · right; left
        simp only [h1, h2, if_true]
        exact ⟨hU, rfl⟩
      by_cases h3 : f.updateSize = true
      · right; right; left
        simp only [h1, h2, h3, if_true, hc1]
        exact ⟨hUC, rfl⟩
      · right; right; right
        refine ⟨size, ?_⟩
        simp only [h1, h2, h3, hc1, hc2]
        exact ⟨hUCS, rfl⟩

/-- C7 fails as stated: in scenario A with a failing update of the
`CheckSumed` column the call reports an error, and the record has
`Uploaded` changed to true while `CheckSumed` and the size are as before. -/
theorem putRepositoryImages_commit_counterexample :
    scenarioA.getRepository "alice" "app" = some repoA ∧
    repoA.Uploaded = false ∧
    (PutRepositoryImages goJson failCheckSumedUpdate scenarioA "alice" "app").2 =
      ⟨400, errorBody "Update the repository checksumed flag error, please try again."⟩ ∧
    (PutRepositoryImages goJson failCheckSumedUpdate scenarioA "alice" "app").1.getRepository
        "alice" "app" = some { repoA with Uploaded := true } := by
  decide

/-! ## C10 -/

/-- C10 fails on the code: with `alice/app` registered, a tag write whose body
has no quoted alphanumeric token (the empty body, or a bare `img2`) ends in the
index-out-of-range panic of `imageIds[1]`, not in an error response; the
tables are unchanged. -/
theorem putTag_body_without_token :
    FindStringSubmatch "".toList = [] ∧
    PutTag .none scenarioA "alice" "app" "latest" "docker" "" =
      (scenarioA, .panic "runtime error: index out of range") ∧
    PutTag .none scenarioA "alice" "app" "latest" "docker" "img2" =
      (scenarioA, .panic "runtime error: index out of range") ∧
    PutTag .none scenarioA "alice" "app" "latest" "docker" "\"img2\"" =
      ({ scenarioA with tags := [⟨1, "latest", "img2", "docker", 1⟩] },
       .response ⟨200, emptyBody⟩) := by
  decide

/-! ## C8 -/

theorem lt_freshId (ids : List Nat) : ∀ x ∈ ids, x < freshId ids := by
  induction ids with
  | nil => simp
  | cons a l ih =>
    intro x hx
    simp only [freshId, List.foldr_cons] at ih ⊢
    rcases List.mem_cons.mp hx with rfl | h
    · omega
    · have := ih x h
      omega

theorem rollupInv_of_tables_eq (J : Json) (db db2 : Engine)
    (hr : db2.repositories = db.repositories) (hi : db2.images = db.images)
    (h : RollupInv J db) : RollupInv J db2 := by
  unfold RollupInv ImageComplete Engine.getImage at *
  rw [hr, hi]
  exact h

theorem rollupInv_updateRepository (J : Json) (db : Engine) (h : RollupInv J db)
    (repo : Repository) (hmem : repo ∈ db.repositories) (g : Repository → Repository)
    (hid : ∀ r, (g r).Id = r.Id)
    (hg : (g repo).CheckSumed = true →
      (g repo).Uploaded = true ∧ ∀ id ∈ manifestIds J (g repo), ImageComplete db id) :
    RollupInv J (db.updateRepository repo.Id g) := by
  obtain ⟨hnd, hrows⟩ := h
  constructor
  · have : (db.updateRepository repo.Id g).repositories.map (fun r => r.Id) =
        db.repositories.map (fun r => r.Id) := by
      simp only [Engine.updateRepository, List.map_map]
      apply List.map_congr_left
      intro r _
      by_cases hr : r.Id = repo.Id <;> simp [hr, hid]
    rw [this]
    exact hnd
  · intro r2 hr2 hc
    simp only [Engine.updateRepository, List.mem_map] at hr2
    obtain ⟨r, hr, rfl⟩ := hr2
    by_cases hrid : r.Id = repo.Id
    · have : r = repo := List.inj_on_of_nodup_map hnd hr hmem hrid
      subst this
      simp only [if_true] at hc ⊢
      exact hg hc
    · simp only [hrid, if_false] at hc ⊢
      exact hrows r hr hc

theorem mem_updateRepository (db : Engine) (repo : Repository) (hmem : repo ∈ db.repositories)
    (g : Repository → Repository) : g repo ∈ (db.updateRepository repo.Id g).repositories := by
  simp only [Engine.updateRepository, List.mem_map]
  exact ⟨repo, hmem, by simp⟩

theorem rollupInv_putRepositoryImages (J : Json) (f : PutRepositoryImagesFaults) (db : Engine)
    (ns name : String) (h : RollupInv J db) :
    RollupInv J (PutRepositoryImages J f db ns name).1 := by
  unfold PutRepositoryImages
  split
  · exact h
  split
  · exact h
  rename_i repo hrepo
  have hmem := (getRepository_id_of_some db ns name repo hrepo).1
  dsimp only
  split
  · exact h
  rename_i uploaded checksumed size hscan
  split
  · exact h
  split
  · exact h
  rename_i hu hc
  have hu2 : uploaded = true := by simpa using hu
  have hc2 : checksumed = true := by simpa using hc
  subst hu2 hc2
  have hall : ∀ id ∈ manifestIds J repo, ImageComplete db id := by
    intro id hid
    simp only [manifestIds, List.mem_map] at hid
    obtain ⟨i, hi, rfl⟩ := hid
    exact scanImages_done_complete _ _ _ _ _ _ hscan i hi
  have h1 := rollupInv_updateRepository J db h repo hmem
    (fun r => { r with Uploaded := true }) (fun _ => rfl) (fun _ => ⟨rfl, hall⟩)
  have hm1 := mem_updateRepository db repo hmem (fun r => { r with Uploaded := true })
  have h2 := rollupInv_updateRepository J _ h1 _ hm1
    (fun r => { r with CheckSumed := true }) (fun _ => rfl) (fun _ => ⟨rfl, hall⟩)
  have hm2 := mem_updateRepository _ _ hm1 (fun r => { r with CheckSumed := true })
  have h3 := rollupInv_updateRepository J _ h2 _ hm2
    (fun r => { r with Size := size }) (fun _ => rfl) (fun _ => ⟨rfl, hall⟩)
  unfold commitRollup
  split
  · exact h
  split
  · exact h1
  split
  · exact h2
  · exact h3

theorem rollupInv_insertRepository (J : Json) (db : Engine) (h : RollupInv J db)
    (r : Repository) (hc : r.CheckSumed = false) : RollupInv J (db.insertRepository r) := by
  obtain ⟨hnd, hrows⟩ := h
  constructor
  · simp only [Engine.insertRepository, List.map_append, List.map_cons, List.map_nil]
    rw [List.nodup_append]
    refine ⟨hnd, List.nodup_singleton _, ?_⟩
    intro a ha hb
    rw [List.mem_singleton] at hb
    have := lt_freshId _ a ha
    omega
  · intro r2 hr2 hc2
    simp only [Engine.insertRepository, List.mem_append, List.mem_singleton] at hr2
    rcases hr2 with hr2 | rfl
    · exact hrows r2 hr2 hc2
    · simp [hc] at hc2

theorem rollupInv_putRepository (J : Json) (f : PutRepositoryFaults) (db : Engine)
    (user : User) (signature ns name body : String) (h : RollupInv J db)
    (hk : (Call.putRepository f user signature ns name body).keepsCompleted db = true) :
    RollupInv J (PutRepository f db user signature ns name body).1 := by
  unfold PutRepository
  split
  · exact h
  dsimp only
  split
  · exact h
  have h1 : ∀ token, RollupInv J (db.updateUserToken user.Id token) :=
    fun token => rollupInv_of_tables_eq J db _ rfl rfl h
  split
  · exact h1 _
  split
  · rename_i repo hrepo
    have hrepo2 : db.getRepository ns name = some repo := hrepo
    have hmem := (getRepository_id_of_some db ns name repo hrepo2).1
    split
    · exact h1 _
    · refine rollupInv_updateRepository J _ (h1 _) repo hmem
        (fun r => { r with JSON := body }) (fun _ => rfl) ?_
      intro hc
      have hc3 : repo.CheckSumed = true := hc
      have hu := (h.2 repo hmem hc3).1
      simp only [Call.keepsCompleted, hrepo2] at hk
      simp [hu, hc3] at hk
  · split
    · exact h1 _
    · exact rollupInv_insertRepository J _ (h1 _) _ rfl

theorem putTag_tables (f : PutTagFaults) (db : Engine) (ns name tagName agent body : String) :
    (PutTag f db ns name tagName agent body).1.repositories = db.repositories ∧
    (PutTag f db ns name tagName agent body).1.images = db.images := by
  unfold PutTag
  dsimp only
  repeat' split
  all_goals exact ⟨rfl, rfl⟩

theorem rollupInv_runCalls (J : Json) (db : Engine) (calls : List Call) (h : RollupInv J db)
    (hk : keepCompleted J db calls = true) : RollupInv J (runCalls J db calls) := by
  induction calls generalizing db with
  | nil => exact h
  | cons c cs ih =>
    simp only [keepCompleted, Bool.and_eq_true] at hk
    simp only [runCalls, List.foldl_cons]
    apply ih _ _ hk.2
    cases c with
    | putRepository f user signature ns name body =>
      exact rollupInv_putRepository J f db user signature ns name body h hk.1
    | putTag f ns name tagName agent body =>
      have ht := putTag_tables f db ns name tagName agent body
      exact rollupInv_of_tables_eq J db _ ht.1 ht.2 h
    | putRepositoryImages f ns name =>
      exact rollupInv_putRepositoryImages J f db ns name h

theorem putRepositoryImages_images (J : Json) (f : PutRepositoryImagesFaults) (db : Engine)
    (ns name : String) : (PutRepositoryImages J f db ns name).1.images = db.images := by
  unfold PutRepositoryImages commitRollup
  dsimp only
  repeat' split
  all_goals rfl

theorem putRepository_images (f : PutRepositoryFaults) (db : Engine) (user : User)
    (signature ns name body : String) :
    (PutRepository f db user signature ns name body).1.images = db.images := by
  unfold PutRepository
  dsimp only
  repeat' split
  all_goals rfl

theorem runCalls_images (J : Json) (db : Engine) (calls : List Call) :
    (runCalls J db calls).images = db.images := by
  induction calls generalizing db with
  | nil => rfl
  | cons c cs ih =>
    simp only [runCalls, List.foldl_cons]
    have h := ih (c.run J db)
    simp only [runCalls] at h
    rw [h]
    cases c with
    | putRepository f user signature ns name body =>
      exact putRepository_images f db user signature ns name body
    | putTag f ns name tagName agent body =>
      exact (putTag_tables f db ns name tagName agent body).2
    | putRepositoryImages f ns name => exact putRepositoryImages_images J f db ns name

theorem hasCompleteImage_of_imageComplete (db : Engine) (id : String) (hne : id ≠ "")
    (h : ImageComplete db id) : HasCompleteImage db id := by
  obtain ⟨image, hget, hu, hc⟩ := h
  unfold Engine.getImage at hget
  have hmem := List.mem_of_find?_eq_some hget
  have hp := List.find?_some hget
  simp only [hne, decide_False, Bool.false_or, decide_eq_true_eq] at hp
  exact ⟨image, hmem, hp, hu, hc⟩

/-- C8, as the code has it: start from an empty repository table and run any
sequence of `PutRepository`, `PutTag` and `PutRepositoryImages` calls, with any
failures of engine calls, in which no `PutRepository` is applied to a record
that already has both `Uploaded` and `CheckSumed` set.  The calls leave the
image records as they were, and for every record with `Uploaded = true` and
`CheckSumed = true`, every non-empty image id of its currently stored manifest
has, in the image table, a record of that id with both flags set. -/
theorem rollup_sound (J : Json) (db0 : Engine) (calls : List Call)
    (hempty : db0.repositories = []) (hk : keepCompleted J db0 calls = true) :
    (runCalls J db0 calls).images = db0.images ∧
    ∀ r ∈ (runCalls J db0 calls).repositories, r.Uploaded = true → r.CheckSumed = true →
      ∀ id ∈ manifestIds J r, id ≠ "" →
        ∃ image ∈ (runCalls J db0 calls).images,
          image.ImageId = id ∧ image.Uploaded = true ∧ image.CheckSumed = true := by
  have h0 : RollupInv J db0 := by
    unfold RollupInv
    rw [hempty]
    exact ⟨List.nodup_nil, fun r hr => absurd hr (List.not_mem_nil r)⟩
  refine ⟨runCalls_images J db0 calls, ?_⟩
  intro r hr _ hc id hid hne
  exact hasCompleteImage_of_imageComplete _ id hne
    (((rollupInv_runCalls J db0 calls h0 hk).2 r hr hc).2 id hid)

/-- Witness for C8, a whole push of `alice/app` over the images of scenario A:
the record ends complete, and the image table holds complete records of
`img1` and `img2`. -/
theorem rollup_sound_witness :
    (runCalls goJson pushStart pushCalls).repositories =
      [{ repoA with Uploaded := true, CheckSumed := true, Size := 30 }] ∧
    HasCompleteImage (runCalls goJson pushStart pushCalls) "img1" ∧
    HasCompleteImage (runCalls goJson pushStart pushCalls) "img2" :=
  have h := (rollup_sound goJson pushStart pushCalls rfl (by decide)).2
    { repoA with Uploaded := true, CheckSumed := true, Size := 30 } (by decide) rfl rfl
  ⟨by decide, h "img1" (by decide) (by decide), h "img2" (by decide) (by decide)⟩

/-- C8 fails as stated: after registration with an empty manifest, a
successful completion check and a second registration whose manifest names
`img1`, the record of `alice/app` has `Uploaded = true` and `CheckSumed = true`
while the image table is empty, so `img1`, an id of its stored manifest, has no
image record. -/
theorem rollup_sound_counterexample :
    startStore.repositories = [] ∧
    (runCalls goJson startStore reRegisterCalls).repositories =
      [⟨1, "alice", "app", "[\x7b\"id\":\"img1\"\x7d]", true, true, 0⟩] ∧
    manifestIds goJson ⟨1, "alice", "app", "[\x7b\"id\":\"img1\"\x7d]", true, true, 0⟩ =
      ["img1"] ∧
    (runCalls goJson startStore reRegisterCalls).images = [] := by
  decide

/-! ## C9 -/

theorem getTag_eq_find_findTags (db : Engine) (n : String) (rid : Nat) :
    db.getTag n rid = (db.findTags rid).find? (fun t => decide (t.Name = n)) := by
  unfold Engine.getTag Engine.findTags
  rw [List.find?_filter]
  congr 1
  funext t
  cases decide (t.Name = n) <;> cases decide (t.Repository = rid) <;> rfl

theorem GoMap.set_of_not_mem (m : GoMap) (k v : String) (h : k ∉ m.map Prod.fst) :
    m.set k v = m ++ [(k, v)] := by
  induction m with
  | nil => rfl
  | cons e rest ih =>
    obtain ⟨k0, v0⟩ := e
    simp only [List.map_cons, List.mem_cons, not_or] at h
    have hne : ¬ k0 = k := fun hk => h.1 hk.symm
    simp [GoMap.set, hne, ih h.2]

theorem foldl_set_of_nodup (tags : List Tag) (acc : GoMap)
    (h : (acc.map Prod.fst ++ tags.map (fun t => t.Name)).Nodup) :
    tags.foldl (fun results v => GoMap.set results v.Name v.ImageId) acc =
      acc ++ tags.map (fun t => (t.Name, t.ImageId)) := by
  induction tags generalizing acc with
  | nil => simp
  | cons t rest ih =>
    have hnot : t.Name ∉ acc.map Prod.fst := by
      intro hmem
      rw [List.nodup_append] at h
      exact h.2.2 hmem (List.mem_cons_self _ _)
    simp only [List.foldl_cons, GoMap.set_of_not_mem acc _ _ hnot]
    rw [ih]
    · simp
    · simpa [List.map_append, List.append_assoc] using h

theorem tagResults_of_nodup (tags : List Tag) (h : (tags.map (fun t => t.Name)).Nodup) :
    tagResults tags = tags.map (fun t => (t.Name, t.ImageId)) := by
  have := foldl_set_of_nodup tags [] (by simpa using h)
  simpa [tagResults] using this

theorem lookup_map_tags (tags : List Tag) (n : String) :
    (tags.map (fun t => (t.Name, t.ImageId))).lookup n =
      (tags.find? (fun t => decide (t.Name = n))).map (fun t => t.ImageId) := by
  induction tags with
  | nil => rfl
  | cons t rest ih =>
    simp only [List.map_cons, List.lookup_cons, List.find?_cons]
    by_cases h : t.Name = n
    · simp [h]
    · have h2 : (n == t.Name) = false := by simpa using fun h3 => h h3.symm
      simp [h, h2, ih]

theorem lastWritten_append (done : List TagWrite) (w : TagWrite) (n : String) :
    lastWritten (done ++ [w]) n =
      if w.tagName = n then w.imageId else lastWritten done n := by
  unfold lastWritten
  simp only [List.reverse_append, List.reverse_cons, List.reverse_nil, List.nil_append,
    List.singleton_append, List.find?_cons]
  by_cases h : w.tagName = n <;> simp [h]

theorem getTag_some_spec (db : Engine) (n : String) (rid : Nat) (t : Tag)
    (h : db.getTag n rid = some t) : t ∈ db.tags ∧ t.Name = n ∧ t.Repository = rid := by
  unfold Engine.getTag at h
  have h1 := List.mem_of_find?_eq_some h
  have h2 := List.find?_some h
  simp only [Bool.and_eq_true, decide_eq_true_eq] at h2
  exact ⟨h1, h2.1, h2.2⟩

theorem tagInv_insert (db : Engine) (rid : Nat) (done : List TagWrite) (w : TagWrite)
    (i : String) (hinv : TagInv db rid done) (hget : db.getTag w.tagName rid = none)
    (hi : w.imageId = some i) :
    TagInv (db.insertTag ⟨0, w.tagName, i, w.agent, rid⟩) rid (done ++ [w]) := by
  obtain ⟨hids, hnames, hdone, hlast⟩ := hinv
  refine ⟨?_, ?_, ?_, ?_⟩
  · simp only [Engine.insertTag, List.map_append, List.map_cons, List.map_nil]
    rw [List.nodup_append]
    refine ⟨hids, List.nodup_singleton _, ?_⟩
    intro a ha hb
    rw [List.mem_singleton] at hb
    have := lt_freshId _ a ha
    omega
  · have hnot : w.tagName ∉ (db.findTags rid).map (fun t => t.Name) := by
      intro hmem
      rw [List.mem_map] at hmem
      obtain ⟨t, ht, htn⟩ := hmem
      rw [getTag_eq_find_findTags, List.find?_eq_none] at hget
      exact hget t ht (by simpa using htn)
    simp only [Engine.findTags, Engine.insertTag, List.filter_append, List.map_append] at hnot ⊢
    simp only [List.filter_cons, decide_True, if_true, List.filter_nil, List.map_cons,
      List.map_nil]
    rw [List.nodup_append]
    refine ⟨hnames, List.nodup_singleton _, ?_⟩
    intro a ha hb
    rw [List.mem_singleton] at hb
    subst hb
    exact hnot ha
  · intro w2 hw2
    rcases List.mem_append.mp hw2 with h | h
    · exact hdone w2 h
    · rw [List.mem_singleton] at h
      subst h
      simp [hi]
  · intro n
    rw [lastWritten_append, ← hlast n]
    simp only [Engine.getTag, Engine.insertTag, List.find?_append, List.find?_cons,
      List.find?_nil]
    by_cases hn : w.tagName = n
    · subst hn
      have hnone : List.find? (fun t => decide (t.Name = w.tagName) && decide (t.Repository = rid))
          db.tags = none := hget
      simp [hnone, hi]
    · simp [hn]

theorem tagInv_update (db : Engine) (rid : Nat) (done : List TagWrite) (w : TagWrite)
    (i : String) (t : Tag) (hinv : TagInv db rid done)
    (hget : db.getTag w.tagName rid = some t) (hi : w.imageId = some i) :
    TagInv (db.updateTag t.Id (fun x =>
      { x with Name := w.tagName, Repository := rid, ImageId := i,
               Agent := if w.agent = "" then x.Agent else w.agent })) rid (done ++ [w]) := by
  obtain ⟨hids, hnames, hdone, hlast⟩ := hinv
  obtain ⟨htmem, htname, htrepo⟩ := getTag_some_spec db _ _ t hget
  have huniq : ∀ x ∈ db.tags, x.Id = t.Id → x = t :=
    fun x hx hxt => List.inj_on_of_nodup_map hids hx htmem hxt
  have htags : (db.updateTag t.Id (fun x =>
      { x with Name := w.tagName, Repository := rid, ImageId := i,
               Agent := if w.agent = "" then x.Agent else w.agent })).tags =
      db.tags.map (fun x => if x.Id = t.Id then
        { x with ImageId := i, Agent := if w.agent = "" then x.Agent else w.agent } else x) := by
    simp only [Engine.updateTag]
    apply List.map_congr_left
    intro x hx
    by_cases hxt : x.Id = t.Id
    · have := huniq x hx hxt
      subst this
      simp [htname, htrepo]
    · simp [hxt]
  have hfind : ∀ n, (db.updateTag t.Id (fun x =>
      { x with Name := w.tagName, Repository := rid, ImageId := i,
               Agent := if w.agent = "" then x.Agent else w.agent })).getTag n rid =
      (db.getTag n rid).map (fun x => if x.Id = t.Id then
        { x with ImageId := i, Agent := if w.agent = "" then x.Agent else w.agent } else x) := by
    intro n
    unfold Engine.getTag
    rw [htags]
    apply find?_map_of_key
    intro x
    by_cases hxt : x.Id = t.Id <;> simp [hxt]
  refine ⟨?_, ?_, ?_, ?_⟩
  · rw [htags, List.map_map]
    have : (fun t => t.Id) ∘ (fun x : Tag => if x.Id = t.Id then
        { x with ImageId := i, Agent := if w.agent = "" then x.Agent else w.agent } else x) =
        fun t => t.Id := by
      funext x
      by_cases hxt : x.Id = t.Id <;> simp [hxt]
    rw [this]
    exact hids
  · unfold Engine.findTags
    rw [htags, List.filter_map, List.map_map]
    have h1 : ((fun t => decide (t.Repository = rid)) ∘ (fun x : Tag => if x.Id = t.Id then
        { x with ImageId := i, Agent := if w.agent = "" then x.Agent else w.agent } else x)) =
        fun t => decide (t.Repository = rid) := by
      funext x
      by_cases hxt : x.Id = t.Id <;> simp [hxt]
    have h2 : (fun t => t.Name) ∘ (fun x : Tag => if x.Id = t.Id then
        { x with ImageId := i, Agent := if w.agent = "" then x.Agent else w.agent } else x) =
        fun t => t.Name := by
      funext x
      by_cases hxt : x.Id = t.Id <;> simp [hxt]
    rw [h1, h2]
    exact hnames
  · intro w2 hw2
    rcases List.mem_append.mp hw2 with h | h
    · exact hdone w2 h
    · rw [List.mem_singleton] at h
      subst h
      simp [hi]
  · intro n
    rw [lastWritten_append, ← hlast n, hfind n]
    by_cases hn : w.tagName = n
    · subst hn
      simp [hget, hi]
    · simp only [hn, if_false]
      cases hx : db.getTag n rid with
      | none => rfl
      | some x =>
        obtain ⟨hxmem, hxname, _⟩ := getTag_some_spec db _ _ x hx
        have hxt : ¬ x.Id = t.Id := by
          intro h
          have := huniq x hxmem h
          subst this
          exact hn (htname.symm.trans hxname)
        simp [hxt]

theorem tagInv_putTag (db db1 : Engine) (ns name : String) (repo : Repository)
    (done : List TagWrite) (w : TagWrite) (r : Response)
    (hrepo : db.getRepository ns name = some repo) (hinv : TagInv db repo.Id done)
    (h : PutTag w.f db ns name w.tagName w.agent w.body = (db1, .response r))
    (h200 : r.status = 200) :
    TagInv db1 repo.Id (done ++ [w]) ∧ db1.getRepository ns name = some repo := by
  have hrepo1 : db1.getRepository ns name = some repo := by
    have ht := (putTag_tables w.f db ns name w.tagName w.agent w.body).1
    rw [h] at ht
    unfold Engine.getRepository at hrepo ⊢
    rw [ht]
    exact hrepo
  refine ⟨?_, hrepo1⟩
  unfold PutTag at h
  simp only [hrepo] at h
  cases h1 : w.f.getRepository with
  | true =>
    simp only [h1, if_true, Prod.mk.injEq, Outcome.response.injEq] at h
    obtain ⟨-, rfl⟩ := h
    exact absurd h200 (by decide)
  | false =>
  cases h2 : w.f.getTag with
  | true =>
    simp only [h1, h2, Bool.false_eq_true, if_true, if_false, Prod.mk.injEq,
      Outcome.response.injEq] at h
    obtain ⟨-, rfl⟩ := h
    exact absurd h200 (by decide)
  | false =>
  simp only [h1, h2, Bool.false_eq_true, if_false] at h
  cases hi : (FindStringSubmatch w.body.toList)[1]? with
  | none =>
    rw [hi] at h
    simp at h
  | some i =>
    rw [hi] at h
    have hi2 : w.imageId = some i := hi
    cases hget : db.getTag w.tagName repo.Id with
    | none =>
      rw [hget] at h
      cases h3 : w.f.write with
      | true =>
        simp only [h3, if_true, Prod.mk.injEq, Outcome.response.injEq] at h
        obtain ⟨-, rfl⟩ := h
        exact absurd h200 (by decide)
      | false =>
        simp only [h3, Bool.false_eq_true, if_false, Prod.mk.injEq] at h
        rw [← h.1]
        exact tagInv_insert db repo.Id done w i hinv hget hi2
    | some t =>
      rw [hget] at h
      cases h3 : w.f.write with
      | true =>
        simp only [h3, if_true, Prod.mk.injEq, Outcome.response.injEq] at h
        obtain ⟨-, rfl⟩ := h
        exact absurd h200 (by decide)
      | false =>
        simp only [h3, Bool.false_eq_true, if_false, Prod.mk.injEq] at h
        rw [← h.1]
        exact tagInv_update db repo.Id done w i t hinv hget hi2

theorem tagInv_putTags (ns name : String) (repo : Repository) (ws : List TagWrite) :
    ∀ (db db2 : Engine) (done : List TagWrite), db.getRepository ns name = some repo →
      TagInv db repo.Id done → putTags db ns name ws = some db2 →
      TagInv db2 repo.Id (done ++ ws) ∧ db2.getRepository ns name = some repo := by
  induction ws with
  | nil =>
    intro db db2 done hrepo hinv hrun
    simp only [putTags, Option.some.injEq] at hrun
    subst hrun
    simpa using ⟨hinv, hrepo⟩
  | cons w ws ih =>
    intro db db2 done hrepo hinv hrun
    simp only [putTags] at hrun
    split at hrun
    · rename_i db1 r heq
      split at hrun
      · rename_i h200
        obtain ⟨hinv1, hrepo1⟩ := tagInv_putTag db db1 ns name repo done w r hrepo hinv heq h200
        have := ih db1 db2 (done ++ [w]) hrepo1 hinv1 hrun
        simpa [List.append_assoc] using this
      · cases hrun
    · cases hrun

theorem lastWritten_ne_none (ws : List TagWrite) (h : ∀ w ∈ ws, w.imageId ≠ none)
    (n : String) : lastWritten ws n ≠ none ↔ n ∈ ws.map (fun w => w.tagName) := by
  unfold lastWritten
  constructor
  · intro hne
    cases hf : ws.reverse.find? (fun w => decide (w.tagName = n)) with
    | none => simp [hf] at hne
    | some w =>
      have h1 := List.mem_of_find?_eq_some hf
      have h2 := List.find?_some hf
      simp only [decide_eq_true_eq] at h2
      rw [List.mem_reverse] at h1
      exact List.mem_map.mpr ⟨w, h1, h2⟩
  · intro hmem
    obtain ⟨w, hw, hwn⟩ := List.mem_map.mp hmem
    cases hf : ws.reverse.find? (fun w => decide (w.tagName = n)) with
    | none =>
      rw [List.find?_eq_none] at hf
      exact absurd (by simpa using hwn) (hf w (List.mem_reverse.mpr hw))
    | some w2 =>
      have h1 := List.mem_of_find?_eq_some hf
      rw [List.mem_reverse] at h1
      simpa using h w2 h1

/-- C9, as the code has it: take a pull-visible repository with no tag, in a
tag table with distinct row ids, and any non-empty sequence of `PutTag` calls on
it that all answer 200.  Then `GetRepositoryTags` answers 200 with a mapping
that has one entry per tag of the repository; its names are pairwise distinct
and are exactly the tag names written, and the value of each name is the image
id given in the most recent write of that name.  The tag table holds at most
one tag per name for the repository. -/
theorem getRepositoryTags_last_written (db0 db : Engine) (ns name : String)
    (repo : Repository) (ws : List TagWrite)
    (hrepo : db0.getRepository ns name = some repo)
    (hu : repo.Uploaded = true) (hc : repo.CheckSumed = true)
    (hids : (db0.tags.map (fun t => t.Id)).Nodup) (hnotags : db0.findTags repo.Id = [])
    (hne : ws ≠ []) (hrun : putTags db0 ns name ws = some db) :
    GetRepositoryTags .none db ns name =
      ⟨200, .tags ((db.findTags repo.Id).map (fun t => (t.Name, t.ImageId)))⟩ ∧
    ((db.findTags repo.Id).map (fun t => t.Name)).Nodup ∧
    (∀ n, n ∈ (db.findTags repo.Id).map (fun t => t.Name) ↔
      n ∈ ws.map (fun w => w.tagName)) ∧
    ∀ n, ((db.findTags repo.Id).map (fun t => (t.Name, t.ImageId))).lookup n =
      lastWritten ws n := by
  have hinv0 : TagInv db0 repo.Id [] := by
    refine ⟨hids, by simp [hnotags], by simp, ?_⟩
    intro n
    rw [getTag_eq_find_findTags, hnotags]
    rfl
  obtain ⟨⟨_, hnames, hdone, hlast⟩, hrepo2⟩ :=
    tagInv_putTags ns name repo ws db0 db [] hrepo hinv0 hrun
  simp only [List.nil_append] at hdone hlast
  have hlookup : ∀ n, ((db.findTags repo.Id).map (fun t => (t.Name, t.ImageId))).lookup n =
      lastWritten ws n := by
    intro n
    rw [lookup_map_tags, ← getTag_eq_find_findTags, hlast]
  have hkeys : ∀ n, n ∈ (db.findTags repo.Id).map (fun t => t.Name) ↔
      n ∈ ws.map (fun w => w.tagName) := by
    intro n
    rw [← lastWritten_ne_none ws hdone n, ← hlast n, getTag_eq_find_findTags]
    constructor
    · intro hmem
      obtain ⟨t, ht, htn⟩ := List.mem_map.mp hmem
      cases hf : (db.findTags repo.Id).find? (fun t => decide (t.Name = n)) with
      | none =>
        rw [List.find?_eq_none] at hf
        exact absurd (by simpa using htn) (hf t ht)
      | some t2 => simp
    · intro hsome
      cases hf : (db.findTags repo.Id).find? (fun t => decide (t.Name = n)) with
      | none => simp [hf] at hsome
      | some t2 =>
        have h1 := List.mem_of_find?_eq_some hf
        have h2 := List.find?_some hf
        simp only [decide_eq_true_eq] at h2
        exact List.mem_map.mpr ⟨t2, h1, h2⟩
  refine ⟨?_, hnames, hkeys, hlookup⟩
  have hlen : (db.findTags repo.Id).length ≠ 0 := by
    intro h0
    have hnil := List.length_eq_zero.mp h0
    obtain ⟨w, hw⟩ := List.exists_mem_of_ne_nil ws hne
    have := (hkeys w.tagName).mpr (List.mem_map.mpr ⟨w, hw, rfl⟩)
    rw [hnil] at this
    simp at this
  have _hvisible : repo.Uploaded = true ∧ repo.CheckSumed = true := ⟨hu, hc⟩
  have hread : db.getUploadedRepository ns name = some repo := hrepo2
  unfold GetRepositoryTags
  simp [GetRepositoryTagsFaults.none, hread, hlen, tagResults_of_nodup _ hnames]

/-- Witness for C9, three writes on `alice/app`: the mapping has the two names
`latest` and `v1`, and `latest` holds img2, the id written last. -/
theorem getRepositoryTags_last_written_witness :
    putTags scenarioNoTags "alice" "app" tagWrites =
      some { scenarioNoTags with
        tags := [⟨1, "latest", "img2", "docker", 1⟩, ⟨2, "v1", "img1", "docker", 1⟩] } ∧
    GetRepositoryTags .none
        { scenarioNoTags with
          tags := [⟨1, "latest", "img2", "docker", 1⟩, ⟨2, "v1", "img1", "docker", 1⟩] }
        "alice" "app" =
      ⟨200, .tags [("latest", "img2"), ("v1", "img1")]⟩ :=
  ⟨by decide,
   (getRepositoryTags_last_written scenarioNoTags
      { scenarioNoTags with
        tags := [⟨1, "latest", "img2", "docker", 1⟩, ⟨2, "v1", "img1", "docker", 1⟩] }
      "alice" "app" { repoA with Uploaded := true, CheckSumed := true, Size := 30 } tagWrites
      (by decide) rfl rfl (by decide) (by decide) (List.cons_ne_nil _ _) (by decide)).1⟩

/-- C9 fails as stated: for the empty sequence of writes on the pull-visible
`alice/app` without tags, `GetRepositoryTags` answers 404, not a mapping without
entries. -/
theorem getRepositoryTags_last_written_counterexample :
    scenarioNoTags.getUploadedRepository "alice" "app" =
      some { repoA with Uploaded := true, CheckSumed := true, Size := 30 } ∧
    putTags scenarioNoTags "alice" "app" [] = some scenarioNoTags ∧
    GetRepositoryTags .none scenarioNoTags "alice" "app" =
      ⟨404, errorBody "Cloud not found any tag."⟩ ∧
    GetRepositoryTags .none scenarioNoTags "alice" "app" ≠ ⟨200, .tags []⟩ := by
  decide

end DockerRegistry
